import Mathlib

/-!
Shallow embedding of the discordFileSystem chunked-transfer engine and its
registry (sources: discordfilesystem/file_helper.py, webhook_helper.py,
core.py).  File contents are byte lists; network fetch and upload outcomes
are threaded in as explicit `Option` results; the persisted JSON registry is
a list of key-value pairs in document order, with Python dict and json key
semantics made explicit.
-/

namespace DiscordFS

/-- Byte strings are modelled as lists of byte values. -/
abbrev Bytes := List Nat

/-- Python exceptions raised on the modelled code paths. -/
inductive PyErr where
  | typeError
  | keyError
  | fileNotFound
  | transport
deriving DecidableEq

/-! ## Chunker: file_helper.split_file (lines 13-62) -/

/-- Fuelled loop body of `split_file` (file_helper.py lines 37-62): repeatedly
`file.read(chunk_size)` and write each non-empty chunk to the next temp file.
`read` returns the next `min(chunk_size, remaining)` bytes, which is empty
exactly when the file is exhausted or `chunk_size = 0`, ending the `while`
loop.  The fuel argument only makes the recursion structural; `split_file`
supplies enough fuel for the loop to run to completion. -/
def splitLoop : Nat → Nat → Bytes → List Bytes
  | 0, _, _ => []
  | fuel + 1, chunkSize, c =>
    if chunkSize = 0 ∨ c = [] then []
    else c.take chunkSize :: splitLoop fuel chunkSize (c.drop chunkSize)

/-- `split_file` (file_helper.py lines 13-62), abstracted over the source
file's byte content: the list of chunk contents written to the temp files
`{filename}.0, {filename}.1, ...` in index order. -/
def split_file (chunkSize : Nat) (c : Bytes) : List Bytes :=
  splitLoop (c.length + 1) chunkSize c

/-! ## Merger: file_helper.merge_chunks / download_chunk (lines 65-181) -/

/-- Merge phase of `merge_chunks` (file_helper.py lines 168-181): the output
file is created by `open(output_path, 'wb')` and the temp chunk files are
appended in index order.  Each list entry is one chunk's fetch outcome,
`none` when that chunk's download failed: `download_chunk` (lines 90-120)
catches the exception and only prints it, so no temp file exists and the
merge loop's `open(temp_file_path, 'rb')` raises `FileNotFoundError`.
Returns the operation's outcome together with the bytes the output file
holds when the function returns or raises. -/
def mergeLoop : List (Option Bytes) → Bytes → Except PyErr Unit × Bytes
  | [], acc => (Except.ok (), acc)
  | Option.some b :: rest, acc => mergeLoop rest (acc ++ b)
  | Option.none :: _, acc => (Except.error PyErr.fileNotFound, acc)

/-- `merge_chunks` (file_helper.py lines 123-181) given each chunk's fetch
outcome.  The `Bytes` component is the final content of the output file,
which is created unconditionally before the merge loop runs. -/
def merge_chunks (fetches : List (Option Bytes)) : Except PyErr Unit × Bytes :=
  mergeLoop fetches []

/-! ## Chunker lemmas -/

lemma splitLoop_nil (fuel chunkSize : Nat) : splitLoop fuel chunkSize [] = [] := by
  cases fuel <;> simp [splitLoop]

lemma splitLoop_cons (fuel chunkSize : Nat) (c : Bytes) (hS : 0 < chunkSize)
    (hc : c ≠ []) :
    splitLoop (fuel + 1) chunkSize c
      = c.take chunkSize :: splitLoop fuel chunkSize (c.drop chunkSize) := by
  have : ¬ (chunkSize = 0 ∨ c = []) := by
    push_neg
    exact ⟨by omega, hc⟩
  simp [splitLoop, this]

lemma splitLoop_join (chunkSize : Nat) (hS : 0 < chunkSize) :
    ∀ fuel (c : Bytes), c.length < fuel → (splitLoop fuel chunkSize c).flatten = c := by
  intro fuel
  induction fuel with
  | zero => intro c hc; omega
  | succ n ih =>
    intro c hc
    by_cases hnil : c = []
    · subst hnil; simp [splitLoop]
    · rw [splitLoop_cons n chunkSize c hS hnil]
      have hlen : (c.drop chunkSize).length < n := by
        have hpos : 0 < c.length := List.length_pos.mpr hnil
        simp only [List.length_drop]
        omega
      simp only [List.flatten_cons, ih (c.drop chunkSize) hlen]
      exact List.take_append_drop chunkSize c

lemma mergeLoop_map_some (l : List Bytes) :
    ∀ acc, mergeLoop (l.map Option.some) acc = (Except.ok (), acc ++ l.flatten) := by
  induction l with
  | nil => intro acc; simp [mergeLoop]
  | cons b rest ih =>
    intro acc
    simp only [List.map_cons, mergeLoop, ih, List.flatten_cons, List.append_assoc]

/-- C1: for every byte content and every chunk size S > 0, splitting with
`split_file` and merging the resulting chunks in ordinal order with
`merge_chunks` (every fetch succeeding and returning the stored bytes)
reproduces the content exactly, and the merge reports success. -/
theorem c1_split_merge_roundtrip (chunkSize : Nat) (hS : 0 < chunkSize)
    (c : Bytes) :
    merge_chunks ((split_file chunkSize c).map Option.some) = (Except.ok (), c) := by
  unfold merge_chunks split_file
  rw [mergeLoop_map_some]
  rw [splitLoop_join chunkSize hS (c.length + 1) c (Nat.lt_succ_self _)]
  simp

/-- Witness for C1 at content [1,2,3,4,5] and chunk size 2. -/
theorem c1_roundtrip_witness :
    merge_chunks ((split_file 2 [1, 2, 3, 4, 5]).map Option.some)
      = (Except.ok (), [1, 2, 3, 4, 5]) :=
  c1_split_merge_roundtrip 2 (by decide) [1, 2, 3, 4, 5]

lemma splitLoop_length (chunkSize : Nat) (hS : 0 < chunkSize) :
    ∀ fuel (c : Bytes), c.length < fuel →
      (splitLoop fuel chunkSize c).length = (c.length + chunkSize - 1) / chunkSize := by
  intro fuel
  induction fuel with
  | zero => intro c hc; omega
  | succ n ih =>
    intro c hc
    by_cases hnil : c = []
    · subst hnil
      simp only [splitLoop_nil, List.length_nil]
      exact (Nat.div_eq_of_lt (by omega)).symm
    · rw [splitLoop_cons n chunkSize c hS hnil]
      have hpos : 0 < c.length := List.length_pos.mpr hnil
      have hlen : (c.drop chunkSize).length < n := by
        simp only [List.length_drop]; omega
      simp only [List.length_cons, ih (c.drop chunkSize) hlen, List.length_drop]
      have h1 : c.length + chunkSize - 1 = (c.length - 1) + chunkSize := by omega
      rw [h1, Nat.add_div_right _ hS]
      congr 1
      by_cases hle : chunkSize ≤ c.length
      · congr 1
        omega
      · have h2 : c.length - chunkSize = 0 := by omega
        rw [h2, Nat.zero_add, Nat.div_eq_of_lt (by omega), Nat.div_eq_of_lt (by omega)]

lemma splitLoop_ne_nil (chunkSize : Nat) (hS : 0 < chunkSize) (fuel : Nat)
    (c : Bytes) (hfuel : c.length < fuel) (hc : c ≠ []) :
    splitLoop fuel chunkSize c ≠ [] := by
  cases fuel with
  | zero => omega
  | succ n =>
    rw [splitLoop_cons n chunkSize c hS hc]
    exact List.cons_ne_nil _ _

lemma splitLoop_dropLast (chunkSize : Nat) (hS : 0 < chunkSize) :
    ∀ fuel (c : Bytes), c.length < fuel →
      ∀ ch ∈ (splitLoop fuel chunkSize c).dropLast, ch.length = chunkSize := by
  intro fuel
  induction fuel with
  | zero => intro c hc; omega
  | succ n ih =>
    intro c hc
    by_cases hnil : c = []
    · subst hnil; simp [splitLoop_nil]
    · rw [splitLoop_cons n chunkSize c hS hnil]
      have hpos : 0 < c.length := List.length_pos.mpr hnil
      by_cases hd : c.drop chunkSize = []
      · rw [hd, splitLoop_nil]
        simp
      · have hlt : chunkSize < c.length := by
          have hlen0 : ¬ (c.drop chunkSize).length = 0 :=
            fun h => hd (List.length_eq_zero.mp h)
          simp only [List.length_drop] at hlen0
          omega
        have hlen : (c.drop chunkSize).length < n := by
          simp only [List.length_drop]; omega
        have hne : splitLoop n chunkSize (c.drop chunkSize) ≠ [] :=
          splitLoop_ne_nil chunkSize hS n (c.drop chunkSize) hlen hd
        obtain ⟨b, t, hbt⟩ := List.exists_cons_of_ne_nil hne
        rw [hbt, List.dropLast_cons₂]
        intro ch hch
        rcases List.mem_cons.mp hch with h | h
        · subst h
          simp only [List.length_take]
          omega
        · exact ih (c.drop chunkSize) hlen ch (hbt ▸ h)

lemma splitLoop_getLast (chunkSize : Nat) (hS : 0 < chunkSize) :
    ∀ fuel (c : Bytes), c.length < fuel → c ≠ [] →
      ((splitLoop fuel chunkSize c).getLast?).map List.length
        = Option.some (if c.length % chunkSize = 0 then chunkSize else c.length % chunkSize) := by
  intro fuel
  induction fuel with
  | zero => intro c hc; omega
  | succ n ih =>
    intro c hc hnil
    rw [splitLoop_cons n chunkSize c hS hnil]
    have hpos : 0 < c.length := List.length_pos.mpr hnil
    by_cases hd : c.drop chunkSize = []
    · have hle : c.length ≤ chunkSize := by
        have hlen0 := congrArg List.length hd
        simp only [List.length_drop, List.length_nil] at hlen0
        omega
      rw [hd, splitLoop_nil]
      simp only [List.getLast?_singleton, Option.map_some', List.length_take]
      rw [Nat.min_eq_right hle]
      by_cases heq : c.length = chunkSize
      · rw [heq, Nat.mod_self, if_pos rfl]
      · rw [Nat.mod_eq_of_lt (by omega), if_neg (by omega)]
    · have hlt : chunkSize < c.length := by
        have hlen0 : ¬ (c.drop chunkSize).length = 0 :=
          fun h => hd (List.length_eq_zero.mp h)
        simp only [List.length_drop] at hlen0
        omega
      have hlen : (c.drop chunkSize).length < n := by
        simp only [List.length_drop]; omega
      have hne : splitLoop n chunkSize (c.drop chunkSize) ≠ [] :=
        splitLoop_ne_nil chunkSize hS n (c.drop chunkSize) hlen hd
      obtain ⟨b, t, hbt⟩ := List.exists_cons_of_ne_nil hne
      rw [hbt, List.getLast?_cons_cons, ← hbt]
      rw [ih (c.drop chunkSize) hlen hd]
      have hmod : c.length % chunkSize = (c.length - chunkSize) % chunkSize :=
        Nat.mod_eq_sub_mod (le_of_lt hlt)
      simp only [List.length_drop]
      rw [hmod]

/-- C2: for every byte content and chunk size S > 0, `split_file` produces
exactly ceil(len/S) chunks (zero for empty content), every chunk except
possibly the last has length exactly S, and the last chunk has length
len mod S unless S divides len evenly, in which case it has length S. -/
theorem c2_chunk_shapes (chunkSize : Nat) (hS : 0 < chunkSize) (c : Bytes) :
    (split_file chunkSize c).length = (c.length + chunkSize - 1) / chunkSize
    ∧ (∀ ch ∈ (split_file chunkSize c).dropLast, ch.length = chunkSize)
    ∧ (c ≠ [] →
        ((split_file chunkSize c).getLast?).map List.length
          = Option.some (if c.length % chunkSize = 0 then chunkSize
              else c.length % chunkSize)) := by
  refine ⟨?_, ?_, ?_⟩
  · exact splitLoop_length chunkSize hS (c.length + 1) c (Nat.lt_succ_self _)
  · exact splitLoop_dropLast chunkSize hS (c.length + 1) c (Nat.lt_succ_self _)
  · exact splitLoop_getLast chunkSize hS (c.length + 1) c (Nat.lt_succ_self _)

/-- Witness for C2 at content [1,2,3] and chunk size 2: two chunks,
first of length 2, last of length 3 mod 2 = 1. -/
theorem c2_chunk_shapes_witness :
    (split_file 2 [1, 2, 3]).length = 2
    ∧ (∀ ch ∈ (split_file 2 [1, 2, 3]).dropLast, ch.length = 2)
    ∧ (([1, 2, 3] : Bytes) ≠ [] →
        ((split_file 2 [1, 2, 3]).getLast?).map List.length = Option.some 1) :=
  c2_chunk_shapes 2 (by decide) [1, 2, 3]

/-- C3: download of three chunks in which the second chunk's fetch fails (for
example with a non-200 status).  `download_chunk` swallows the failure (it
prints and returns, file_helper.py lines 118-120), so `merge_chunks` creates
the output file, writes chunk 0 into it, and only then raises
`FileNotFoundError` on the missing temp file of chunk 1: the operation
returns with the output file existing and holding the partial bytes [1, 2] of
the original [1, 2, 3] — contradicting the required all-or-nothing failure. -/
theorem c3_partial_output_left_behind :
    merge_chunks [Option.some [1, 2], Option.none, Option.some [3]]
      = (Except.error PyErr.fileNotFound, [1, 2]) := rfl

/-! ## Endpoint pool: webhook_helper.upload_files (lines 9-61) -/

/-- Send loop of `upload_files` (webhook_helper.py lines 46-53): the file
appended when `len(tasks) = t` is routed through
`webhooks[t % len(webhooks)]`.  Returns the pool index for each file of the
call, in file order. -/
def sendLoop {α : Type} (nWebhooks : Nat) : Nat → List α → List Nat
  | _, [] => []
  | tasksLen, _ :: rest => tasksLen % nWebhooks :: sendLoop nWebhooks (tasksLen + 1) rest

/-- Pool indices assigned by one `upload_files` call (webhook_helper.py
lines 9-61); the task counter starts at zero on every call. -/
def upload_files_assignment {α : Type} (nWebhooks : Nat) (files : List α) : List Nat :=
  sendLoop nWebhooks 0 files

/-- `asyncio.gather` over the `webhook.send` coroutines (webhook_helper.py
lines 42-61): each entry is `some url` for a successful send (the url of the
returned message's first attachment) or `none` for a send that raised, which
`gather` propagates as a transport error. -/
def gatherSends : List (Option String) → Except PyErr (List String)
  | [] => Except.ok []
  | Option.some u :: rest =>
    match gatherSends rest with
    | Except.error e => Except.error e
    | Except.ok us => Except.ok (u :: us)
  | Option.none :: _ => Except.error PyErr.transport

/-- `upload_files` (webhook_helper.py lines 9-61) given each send's outcome:
an empty file list returns `[]` at once; otherwise the attachment urls in
file order, or the propagated exception if any send failed. -/
def upload_files (outcomes : List (Option String)) : Except PyErr (List String) :=
  if outcomes.isEmpty then Except.ok [] else gatherSends outcomes

/-! ## Transfer engine: core.upload_file (lines 202-278) -/

/-- Batch grouping of the `upload_file` chunk loop (core.py lines 251-268):
chunk `index` is appended to `chunk_files`, and the pending batch is flushed
through `upload_chunks` when `index % chunks_per_upload == 0` or
`index == len(file_chunks) - 1`. -/
def batchLoop {α : Type} (cpu : Nat) : Nat → List α → List α → List (List α)
  | _, _, [] => []
  | idx, pending, o :: rest =>
    if idx % cpu = 0 ∨ rest.isEmpty then
      (pending ++ [o]) :: batchLoop cpu (idx + 1) [] rest
    else
      batchLoop cpu (idx + 1) (pending ++ [o]) rest

/-- The batches of chunks flushed by one `upload_file` run, in flush order. -/
def upload_batches {α : Type} (cpu : Nat) (chunks : List α) : List (List α) :=
  batchLoop cpu 0 [] chunks

/-- Pool index assigned to every chunk of an `upload_file` run with
`numChunks` chunks, batch size `cpu` and `nWebhooks` webhook urls, in chunk
ordinal order: each flushed batch goes through a fresh `upload_files` call,
whose task counter restarts at zero. -/
def upload_assignment (numChunks cpu nWebhooks : Nat) : List Nat :=
  ((upload_batches cpu (List.range numChunks)).map
    (upload_files_assignment nWebhooks)).flatten

lemma sendLoop_eq {α : Type} (nWebhooks : Nat) (files : List α) :
    ∀ t, sendLoop nWebhooks t files = (List.range files.length).map (fun i => (t + i) % nWebhooks) := by
  induction files with
  | nil => intro t; simp [sendLoop]
  | cons a rest ih =>
    intro t
    simp only [sendLoop, List.length_cons, List.range_succ_eq_map, List.map_cons,
      List.map_map, ih (t + 1), Nat.add_zero]
    congr 1
    apply List.map_congr_left
    intro i _
    simp only [Function.comp_apply]
    congr 1
    omega

/-- C4 counterexample: in an `upload_file` run of 5 chunks (ordinals 0-4)
with the default `chunks_per_upload = 5` through a pool of 2 webhooks, the
assignment by pool index is [0, 0, 1, 0, 1] — because the batch flushed at
index 0 restarts the webhook rotation — not [0, 1, 0, 1, 0] as the claim
states. -/
theorem c4_assignment_counterexample :
    upload_assignment 5 5 2 ≠ [0, 1, 0, 1, 0] := by decide

/-- C4 amended: within a single `upload_files` call the file at position i is
assigned pool index i mod N; but `upload_file` flushes a batch at chunk index
0 and then every `chunks_per_upload` indices (and at the last index), and the
rotation restarts per batch, so 5 chunks through a pool of 2 get pool indices
[0, 0, 1, 0, 1]. -/
theorem c4_assignment_amended :
    (∀ (nWebhooks : Nat) (files : List Nat), 0 < nWebhooks →
      upload_files_assignment nWebhooks files
        = (List.range files.length).map (fun i => i % nWebhooks))
    ∧ upload_assignment 5 5 2 = [0, 0, 1, 0, 1] := by
  constructor
  · intro nWebhooks files _
    unfold upload_files_assignment
    rw [sendLoop_eq]
    simp
  · decide

/-- Witness for the amended C4 at a 3-file `upload_files` call over 2
webhooks: assignment [0, 1, 0]. -/
theorem c4_assignment_witness :
    upload_files_assignment 2 ([0, 1, 2] : List Nat) = [0, 1, 0] :=
  c4_assignment_amended.1 2 [0, 1, 2] (by decide)

/-! ## Registry: core.read_files_cache / update_files_cache (lines 55-95) -/

/-- A Python dict key of the files cache: the cache dict mixes `int` keys
(fresh inserts in `upload_file` / `update_files_cache`) with `str` keys
(everything read back from JSON).  Python `==` across the two types is always
false. -/
inductive PyKey where
  | pInt (n : Nat)
  | pStr (s : String)
deriving DecidableEq

/-- Python `==` on dict keys. -/
def pyKeyEq : PyKey → PyKey → Bool
  | PyKey.pInt a, PyKey.pInt b => a == b
  | PyKey.pStr a, PyKey.pStr b => a == b
  | _, _ => false

/-- One value of the files cache:
`{"filename": ..., "size": ..., "urls": ...}` (core.py lines 87-91). -/
structure FileRecord where
  filename : String
  size : Nat
  urls : List String
deriving DecidableEq

/-- The persisted `files_cache.json` document: key-value pairs in the order
`json.dump` wrote them.  `json.dump` writes `int` dict keys as their decimal
strings, so a document may contain duplicate keys. -/
abbrev CacheDoc := List (String × FileRecord)

/-- How `json.dump` encodes a dict key: `int` keys become decimal strings,
`str` keys are kept. -/
def jsonKeyOf : PyKey → String
  | PyKey.pInt n => toString n
  | PyKey.pStr s => s

/-- Python dict assignment `d[k] = v`: overwrite in place when a key equal to
`k` exists, else append at the end (insertion order). -/
def pyDictSet (d : List (PyKey × FileRecord)) (k : PyKey) (v : FileRecord) :
    List (PyKey × FileRecord) :=
  if d.any (fun e => pyKeyEq e.1 k) then
    d.map (fun e => if pyKeyEq e.1 k then (e.1, v) else e)
  else d ++ [(k, v)]

/-- Python dict lookup `d[k]`: `none` models a raised `KeyError`. -/
def pyDictGet (d : List (PyKey × FileRecord)) (k : PyKey) : Option FileRecord :=
  (d.find? (fun e => pyKeyEq e.1 k)).map Prod.snd

/-- `read_files_cache` (core.py lines 55-65), i.e. `dict(json.load(f))` over
the persisted document: JSON object keys are strings, and a duplicated key
keeps the value of its last occurrence. -/
def read_files_cache (doc : CacheDoc) : List (PyKey × FileRecord) :=
  doc.foldl (fun d e => pyDictSet d (PyKey.pStr e.1) e.2) []

/-- `json.dump` of an in-memory dict: entries in insertion order with
string-encoded keys. -/
def jsonDumpDict (d : List (PyKey × FileRecord)) : CacheDoc :=
  d.map (fun e => (jsonKeyOf e.1, e.2))

/-- `update_files_cache` (core.py lines 67-95): read the cache back from the
document, assign `files_cache[file_id] = record` under the `int` key
`file_id`, and dump the dict back to disk. -/
def update_files_cache (fileId : Nat) (r : FileRecord) (doc : CacheDoc) : CacheDoc :=
  jsonDumpDict (pyDictSet (read_files_cache doc) (PyKey.pInt fileId) r)

/-- Looking a string key up in a persisted document as `json.load` would:
the last occurrence of the key wins. -/
def jsonLookup (doc : CacheDoc) (k : String) : Option FileRecord :=
  ((doc.filter (fun e => e.1 == k)).getLast?).map Prod.snd

/-- The id-allocation loop of `upload_file` (core.py lines 225-231):
`file_id = random.randint(1, 9999)` repeatedly until
`file_id not in files_cache.keys()`, where the membership test is Python
`in`, i.e. `==` against each key of the dict returned by
`read_files_cache`.  `draws` is the stream of successive `randint` results;
`none` means every draw of the stream collided and the loop is still
running. -/
def allocate_file_id (keys : List PyKey) : List Nat → Option Nat
  | [] => Option.none
  | d :: rest =>
    if keys.any (fun k => pyKeyEq k (PyKey.pInt d)) then allocate_file_id keys rest
    else Option.some d

/-! ## upload_file (core.py lines 202-278) -/

/-- Sequential processing of the flushed batches in `upload_file` (core.py
lines 240-271): each batch goes through `upload_files` and the returned urls
are appended with `chunk_urls.extend(...)`; a raised exception aborts the
loop and propagates. -/
def runBatches : List (List (Option String)) → Except PyErr (List String)
  | [] => Except.ok []
  | b :: rest =>
    match upload_files b with
    | Except.error e => Except.error e
    | Except.ok us =>
      match runBatches rest with
      | Except.error e => Except.error e
      | Except.ok more => Except.ok (us ++ more)

/-- `upload_file` (core.py lines 202-278) from the point the chunk files
exist, given each chunk's send outcome in ordinal order: on success the
registry document is rewritten by `update_files_cache` with the collected
urls; a raised exception propagates before `update_files_cache` is reached,
so the document is left untouched.  Returns the outcome together with the
final registry document. -/
def upload_file (fileId : Nat) (filename : String) (size : Nat) (cpu : Nat)
    (outcomes : List (Option String)) (doc : CacheDoc) :
    Except PyErr Unit × CacheDoc :=
  match runBatches (upload_batches cpu outcomes) with
  | Except.error e => (Except.error e, doc)
  | Except.ok urls =>
    (Except.ok (), update_files_cache fileId ⟨filename, size, urls⟩ doc)

lemma batchLoop_flatten {α : Type} (cpu : Nat) :
    ∀ (remaining : List α) (idx : Nat) (pending : List α), remaining ≠ [] →
      (batchLoop cpu idx pending remaining).flatten = pending ++ remaining := by
  intro remaining
  induction remaining with
  | nil => intro idx pending h; exact absurd rfl h
  | cons o rest ih =>
    intro idx pending _
    by_cases hrest : rest = []
    · subst hrest
      simp [batchLoop]
    · have hr : rest.isEmpty = false := by
        simp [List.isEmpty_iff, hrest]
      by_cases htrig : idx % cpu = 0
      · simp only [batchLoop, htrig, true_or, if_true, List.flatten_cons,
          ih (idx + 1) [] hrest, List.nil_append, List.append_assoc,
          List.singleton_append]
      · simp only [batchLoop, htrig, hr, false_or, if_false, Bool.false_eq_true,
          ih (idx + 1) (pending ++ [o]) hrest, List.append_assoc,
          List.singleton_append]

lemma gatherSends_error (b : List (Option String)) (h : Option.none ∈ b) :
    gatherSends b = Except.error PyErr.transport := by
  induction b with
  | nil => simp at h
  | cons o rest ih =>
    cases o with
    | none => simp [gatherSends]
    | some u =>
      have hrest : Option.none ∈ rest := by
        rcases List.mem_cons.mp h with h1 | h1
        · exact absurd h1 (by simp)
        · exact h1
      simp [gatherSends, ih hrest]

lemma gatherSends_ok (b : List (Option String)) (h : Option.none ∉ b) :
    ∃ us, gatherSends b = Except.ok us := by
  induction b with
  | nil => exact ⟨[], rfl⟩
  | cons o rest ih =>
    cases o with
    | none => exact absurd (List.mem_cons_self _ _) h
    | some u =>
      obtain ⟨us, hus⟩ := ih (fun hr => h (List.mem_cons_of_mem _ hr))
      exact ⟨u :: us, by simp [gatherSends, hus]⟩

lemma upload_files_error (b : List (Option String)) (h : Option.none ∈ b) :
    upload_files b = Except.error PyErr.transport := by
  have hne : b ≠ [] := fun habs => by simp [habs] at h
  have : b.isEmpty = false := by simp [List.isEmpty_iff, hne]
  simp [upload_files, this, gatherSends_error b h]

lemma runBatches_error (bs : List (List (Option String)))
    (h : ∃ b ∈ bs, Option.none ∈ b) :
    runBatches bs = Except.error PyErr.transport := by
  induction bs with
  | nil => simp at h
  | cons b rest ih =>
    by_cases hb : Option.none ∈ b
    · simp [runBatches, upload_files_error b hb]
    · have hrest : ∃ x ∈ rest, Option.none ∈ x := by
        rcases h with ⟨x, hx, hnx⟩
        rcases List.mem_cons.mp hx with h1 | h1
        · exact absurd (h1 ▸ hnx) hb
        · exact ⟨x, h1, hnx⟩
      have hok : Option.none ∉ b := hb
      obtain ⟨us, hus⟩ := gatherSends_ok b hok
      by_cases hbe : b.isEmpty
      · simp [runBatches, upload_files, hbe, ih hrest]
      · simp [runBatches, upload_files, hbe, hus, ih hrest]

/-- C8: for every upload in which some chunk's send fails (`none` among the
outcomes), the whole `upload_file` run aborts with the propagated transport
error and the registry document is unchanged: `update_files_cache` is never
reached, so no partial FileRecord is committed and the collected locators are
discarded. -/
theorem c8_upload_abort (fileId : Nat) (filename : String) (size : Nat)
    (cpu : Nat) (outcomes : List (Option String)) (doc : CacheDoc)
    (_hcpu : 0 < cpu) (h : Option.none ∈ outcomes) :
    upload_file fileId filename size cpu outcomes doc
      = (Except.error PyErr.transport, doc) := by
  have hne : outcomes ≠ [] := fun habs => by simp [habs] at h
  have hflat : (upload_batches cpu outcomes).flatten = outcomes := by
    unfold upload_batches
    simpa using batchLoop_flatten cpu outcomes 0 [] hne
  have hmem : ∃ b ∈ upload_batches cpu outcomes, Option.none ∈ b := by
    have : Option.none ∈ (upload_batches cpu outcomes).flatten := by
      rw [hflat]; exact h
    exact List.mem_flatten.mp this
  unfold upload_file
  rw [runBatches_error _ hmem]

/-- Witness for C8: a two-chunk upload whose second send fails, with the
default batch size 5, over an initially empty registry document. -/
theorem c8_upload_abort_witness :
    upload_file 1 "f.bin" 10 5 [Option.some "u0", Option.none] []
      = (Except.error PyErr.transport, []) :=
  c8_upload_abort 1 "f.bin" 10 5 [Option.some "u0", Option.none] []
    (by decide) (by simp)

/-! ## Registry lemmas and the allocation claims -/

lemma pyDictSet_keeps_str (d : List (PyKey × FileRecord)) (k : String)
    (v : FileRecord) (h : ∀ e ∈ d, ∃ s, e.1 = PyKey.pStr s) :
    ∀ e ∈ pyDictSet d (PyKey.pStr k) v, ∃ s, e.1 = PyKey.pStr s := by
  intro e he
  unfold pyDictSet at he
  by_cases hany : d.any (fun e => pyKeyEq e.1 (PyKey.pStr k))
  · rw [if_pos hany] at he
    obtain ⟨x, hx, hxe⟩ := List.mem_map.mp he
    by_cases hk : pyKeyEq x.1 (PyKey.pStr k)
    · rw [if_pos hk] at hxe
      obtain ⟨s, hs⟩ := h x hx
      exact ⟨s, by rw [← hxe]; exact hs⟩
    · rw [if_neg hk] at hxe
      exact hxe ▸ h x hx
  · rw [if_neg hany] at he
    rcases List.mem_append.mp he with h1 | h1
    · exact h e h1
    · have : e = (PyKey.pStr k, v) := by simpa using h1
      exact ⟨k, by rw [this]⟩

lemma read_files_cache_keys_str (doc : CacheDoc) :
    ∀ e ∈ read_files_cache doc, ∃ s, e.1 = PyKey.pStr s := by
  unfold read_files_cache
  have aux : ∀ (l : CacheDoc) (d : List (PyKey × FileRecord)),
      (∀ e ∈ d, ∃ s, e.1 = PyKey.pStr s) →
      ∀ e ∈ l.foldl (fun d e => pyDictSet d (PyKey.pStr e.1) e.2) d,
        ∃ s, e.1 = PyKey.pStr s := by
    intro l
    induction l with
    | nil => intro d hd e he; exact hd e he
    | cons a rest ih =>
      intro d hd e he
      exact ih (pyDictSet d (PyKey.pStr a.1) a.2)
        (pyDictSet_keeps_str d a.1 a.2 hd) e he
  exact aux doc [] (by simp)

lemma pyDictSet_int_append (d : List (PyKey × FileRecord)) (n : Nat)
    (v : FileRecord) (h : ∀ e ∈ d, ∃ s, e.1 = PyKey.pStr s) :
    pyDictSet d (PyKey.pInt n) v = d ++ [(PyKey.pInt n, v)] := by
  unfold pyDictSet
  rw [if_neg]
  rw [List.any_eq_true]
  push_neg
  intro e he
  obtain ⟨s, hs⟩ := h e he
  rw [hs]
  simp [pyKeyEq]

lemma jsonLookup_append_last (l : CacheDoc) (k : String) (v : FileRecord) :
    jsonLookup (l ++ [(k, v)]) k = Option.some v := by
  unfold jsonLookup
  rw [List.filter_append]
  have : List.filter (fun e => e.1 == k) [(k, v)] = [(k, v)] := by simp
  rw [this, List.getLast?_concat]
  rfl

/-- C7: for every identifier and record, writing the record with
`update_files_cache` and then reading the persisted registry back and looking
the identifier up (under its string encoding, which is how every key of the
persisted document is stored) returns exactly that record. -/
theorem c7_registry_put_get (fileId : Nat) (r : FileRecord) (doc : CacheDoc) :
    jsonLookup (update_files_cache fileId r doc) (toString fileId)
      = Option.some r := by
  unfold update_files_cache
  rw [pyDictSet_int_append _ _ _ (read_files_cache_keys_str doc)]
  unfold jsonDumpDict
  rw [List.map_append]
  exact jsonLookup_append_last _ _ _

lemma any_int_eq_false_of_str_keys (keys : List PyKey) (d : Nat)
    (h : ∀ k ∈ keys, ∃ s, k = PyKey.pStr s) :
    keys.any (fun k => pyKeyEq k (PyKey.pInt d)) = false := by
  rw [Bool.eq_false_iff]
  intro habs
  rw [List.any_eq_true] at habs
  obtain ⟨k, hk, hkd⟩ := habs
  obtain ⟨s, hs⟩ := h k hk
  rw [hs] at hkd
  simp [pyKeyEq] at hkd

/-- C5: the collision check of the allocation loop in `upload_file`
(core.py line 230) compares the freshly drawn `int` against the cache keys,
which `read_files_cache` returns as JSON strings, so it never fires: with the
persisted registry {"7": r0} and the draw 7, the loop allocates 7 on the
first iteration even though the persisted document already has the key "7"
(which is exactly how `json.dump` encodes the id 7), and committing the new
record under id 7 overwrites the existing record "7". -/
theorem c5_id_collision_check_bug :
    allocate_file_id
        ((read_files_cache [("7", ⟨"old.bin", 3, ["u0"]⟩)]).map Prod.fst) [7]
      = Option.some 7
    ∧ jsonKeyOf (PyKey.pInt 7) = "7"
    ∧ jsonLookup [("7", ⟨"old.bin", 3, ["u0"]⟩)] "7"
        = Option.some ⟨"old.bin", 3, ["u0"]⟩
    ∧ jsonLookup
        (update_files_cache 7 ⟨"new.bin", 5, ["u1"]⟩
          [("7", ⟨"old.bin", 3, ["u0"]⟩)]) "7"
      = Option.some ⟨"new.bin", 5, ["u1"]⟩ := by
  refine ⟨rfl, rfl, rfl, rfl⟩

/-- C6 counterexample: with every identifier of the space 1-9999 already
taken in the persisted registry (keys "1" .. "9999" as read back from JSON),
the allocation loop of `upload_file` does not fail with any
`ExhaustedIdSpace` error — no such error exists in the code — but returns
the very first draw (here 5, a colliding identifier) because the `int`
versus `str` comparison never detects the collision. -/
theorem c6_exhausted_space_counterexample :
    allocate_file_id
        ((List.range 9999).map (fun n => PyKey.pStr (toString (n + 1)))) [5]
      = Option.some 5 := by
  unfold allocate_file_id
  rw [any_int_eq_false_of_str_keys]
  · simp
  · intro k hk
    obtain ⟨n, _, hn⟩ := List.mem_map.mp hk
    exact ⟨toString (n + 1), hn.symm⟩

/-- C6 amended: the allocation loop terminates for every registry state, but
not through any bounded retry count or `ExhaustedIdSpace` failure: because
every key read back from the persisted cache is a string while the draw is an
`int`, the membership check never fires and the loop accepts the very first
draw — even when the whole identifier space is taken, in which case the
returned identifier collides with an existing key. -/
theorem c6_allocation_amended (keys : List PyKey) (d : Nat) (rest : List Nat)
    (h : ∀ k ∈ keys, ∃ s, k = PyKey.pStr s) :
    allocate_file_id keys (d :: rest) = Option.some d := by
  unfold allocate_file_id
  rw [any_int_eq_false_of_str_keys keys d h]
  simp

/-- Witness for the amended C6: a registry whose only key is the string "1"
and the draw 1. -/
theorem c6_allocation_witness :
    allocate_file_id [PyKey.pStr "1"] [1] = Option.some 1 :=
  c6_allocation_amended [PyKey.pStr "1"] 1 []
    (by intro k hk; simp at hk; exact ⟨"1", hk⟩)

/-! ## generate_file_name (core.py lines 154-174) -/

/-- Index of the last occurrence of `c` in the character list (Python
`str.rfind`): `-1` when absent. -/
def rfindC (c : Char) : List Char → Int
  | [] => -1
  | a :: rest =>
    let r := rfindC c rest
    if 0 ≤ r then r + 1 else if a = c then 0 else -1

/-- `os.path.splitext`: split before the last dot, provided the dot comes
after the last path separator and the basename has a non-dot character in
front of it (leading dots of a basename never start an extension). -/
def splitextList (p : List Char) : List Char × List Char :=
  if rfindC '/' p < rfindC '.' p ∧
      ((p.drop (rfindC '/' p + 1).toNat).take
          (rfindC '.' p - rfindC '/' p - 1).toNat).any (fun ch => ch != '.') then
    (p.take (rfindC '.' p).toNat, p.drop (rfindC '.' p).toNat)
  else (p, [])

/-- One retry step of `generate_file_name` (core.py lines 168-169):
`name, extension = os.path.splitext(output_path)` followed by
`f"{name} ({index}){extension}"`. -/
def addIndexSuffix (p : List Char) (idx : Nat) : List Char :=
  (splitextList p).1 ++ String.toList " (" ++ String.toList (toString idx)
    ++ String.toList ")" ++ (splitextList p).2

/-- The `while os.path.exists(output_path)` retry loop of
`generate_file_name` (core.py lines 166-172) over an explicit list of the
existing paths.  The fuel argument only makes the recursion structural;
`generate_file_name` supplies enough fuel for the loop to reach a free
name. -/
def genLoop (existing : List (List Char)) : Nat → Nat → List Char → List Char
  | 0, _, p => p
  | fuel + 1, idx, p =>
    if p ∈ existing then genLoop existing fuel (idx + 1) (addIndexSuffix p idx)
    else p

/-- `generate_file_name` (core.py lines 154-174): `existing` is the list of
paths for which `os.path.exists` holds; `os.path.abspath` is modelled as the
identity (paths are taken to be absolute already). -/
def generate_file_name (existing : List String) (p : String) : String :=
  String.mk (genLoop (existing.map String.toList) (existing.length + 1) 1 p.toList)

lemma splitextList_append (p : List Char) :
    (splitextList p).1 ++ (splitextList p).2 = p := by
  unfold splitextList
  split
  · exact List.take_append_drop _ p
  · simp

lemma length_addIndexSuffix (p : List Char) (idx : Nat) :
    p.length < (addIndexSuffix p idx).length := by
  have hsplit := congrArg List.length (splitextList_append p)
  rw [List.length_append] at hsplit
  unfold addIndexSuffix
  simp only [List.length_append]
  have h2 : (String.toList " (").length = 2 := by decide
  have h1 : (String.toList ")").length = 1 := by decide
  omega

/-- Number of existing paths at least as long as `n`: the retry candidates
strictly grow in length, so this bounds how many further collisions the
retry loop can meet. -/
def countGe (n : Nat) (ex : List (List Char)) : Nat :=
  (ex.filter (fun s => n ≤ s.length)).length

lemma countGe_mono (m n : Nat) (h : m ≤ n) :
    ∀ ex : List (List Char), countGe n ex ≤ countGe m ex := by
  intro ex
  induction ex with
  | nil => exact Nat.le_refl 0
  | cons a t ih =>
    unfold countGe at ih ⊢
    rw [List.filter_cons, List.filter_cons]
    by_cases hn : n ≤ a.length
    · rw [if_pos (by simpa using hn), if_pos (by simpa using le_trans h hn)]
      simpa using ih
    · rw [if_neg (by simpa using hn)]
      by_cases hm : m ≤ a.length
      · rw [if_pos (by simpa using hm)]
        simp only [List.length_cons]
        exact le_trans ih (Nat.le_succ _)
      · rw [if_neg (by simpa using hm)]
        exact ih

lemma countGe_lt (p : List Char) (n : Nat) (h : p.length < n) :
    ∀ ex : List (List Char), p ∈ ex → countGe n ex < countGe p.length ex := by
  intro ex
  induction ex with
  | nil => intro hp; simp at hp
  | cons a t ih =>
    intro hp
    unfold countGe at ih ⊢
    rw [List.filter_cons, List.filter_cons]
    rcases List.mem_cons.mp hp with h1 | h1
    · subst h1
      rw [if_neg (by simpa using (by omega : ¬ n ≤ p.length)),
        if_pos (by simp)]
      simp only [List.length_cons]
      have := countGe_mono p.length n (le_of_lt h) t
      unfold countGe at this
      omega
    · by_cases hn : n ≤ a.length
      · rw [if_pos (by simpa using hn), if_pos (by simpa using (by omega : p.length ≤ a.length))]
        simp only [List.length_cons]
        have := ih h1
        omega
      · rw [if_neg (by simpa using hn)]
        by_cases hm : p.length ≤ a.length
        · rw [if_pos (by simpa using hm)]
          simp only [List.length_cons]
          have := ih h1
          omega
        · rw [if_neg (by simpa using hm)]
          exact ih h1

lemma genLoop_not_mem (existing : List (List Char)) :
    ∀ (fuel idx : Nat) (p : List Char), countGe p.length existing < fuel →
      genLoop existing fuel idx p ∉ existing := by
  intro fuel
  induction fuel with
  | zero => intro idx p h; omega
  | succ n ih =>
    intro idx p h
    by_cases hp : p ∈ existing
    · simp only [genLoop, if_pos hp]
      apply ih
      have hlt := countGe_lt p (addIndexSuffix p idx).length
        (length_addIndexSuffix p idx) existing hp
      omega
    · simp only [genLoop, if_neg hp]
      exact hp

/-- C9 counterexample: with "files_cache.json" and "files_cache (1).json"
both already present, `generate_file_name` returns
"files_cache (1) (2).json" — each retry re-splits the previous candidate, so
the suffixes accumulate on the stem — and never the claimed
"files_cache (2).json". -/
theorem c9_export_naming_counterexample :
    generate_file_name ["files_cache.json", "files_cache (1).json"]
      "files_cache.json" ≠ "files_cache (2).json" := by decide

/-- C9 amended: `generate_file_name` never returns an existing path, so an
export never overwrites an existing file and a second export beside
"files_cache.json" gets "files_cache (1).json"; but the disambiguating
suffixes accumulate — the candidate after "name (1).ext" is
"name (1) (2).ext", not "name (2).ext". -/
theorem c9_export_naming_amended :
    (∀ (existing : List String) (p : String),
      decide (generate_file_name existing p ∈ existing) = false)
    ∧ generate_file_name ["files_cache.json"] "files_cache.json"
        = "files_cache (1).json"
    ∧ generate_file_name ["files_cache.json", "files_cache (1).json"]
        "files_cache.json" = "files_cache (1) (2).json" := by
  refine ⟨?_, by decide, by decide⟩
  intro existing p
  apply decide_eq_false
  intro hmem
  have hl : genLoop (existing.map String.toList) (existing.length + 1) 1 p.toList
      ∈ existing.map String.toList :=
    List.mem_map_of_mem String.toList hmem
  have hfree : genLoop (existing.map String.toList) (existing.length + 1) 1 p.toList
      ∉ existing.map String.toList := by
    apply genLoop_not_mem
    have hle : countGe p.toList.length (existing.map String.toList)
        ≤ (existing.map String.toList).length := List.length_filter_le _ _
    simp only [List.length_map] at hle
    omega
  exact hfree hl

/-! ## export_files_cache (core.py lines 119-152) -/

/-- The dict comprehension `{file_id: files_cache[file_id] for file_id in
file_ids}` of `export_files_cache` (core.py lines 142-144): iterating `None`
raises `TypeError`; a missing key raises `KeyError` at the first absent
id. -/
def filterCache (d : List (PyKey × FileRecord)) :
    List PyKey → List (PyKey × FileRecord) → Except PyErr (List (PyKey × FileRecord))
  | [], acc => Except.ok acc
  | k :: rest, acc =>
    match pyDictGet d k with
    | Option.none => Except.error PyErr.keyError
    | Option.some v => filterCache d rest (pyDictSet acc k v)

/-- `export_files_cache` (core.py lines 119-152): read the cache, filter it
by `file_ids` (whose documented default is `None`), then pick a fresh name
with `generate_file_name` and write the snapshot there.  On success returns
the path written and the snapshot; when the filtering comprehension raises,
the error propagates before any output file is opened, so nothing is
written.  `os.path.join` is modelled as interposing the path separator and
`os.path.abspath` as the identity. -/
def export_files_cache (doc : CacheDoc) (fileIds : Option (List PyKey))
    (existing : List String) (outputDir outputFileName : String) :
    Except PyErr (String × List (PyKey × FileRecord)) :=
  match fileIds with
  | Option.none => Except.error PyErr.typeError
  | Option.some ids =>
    match filterCache (read_files_cache doc) ids [] with
    | Except.error e => Except.error e
    | Except.ok snap =>
      Except.ok (generate_file_name existing (outputDir ++ "/" ++ outputFileName), snap)

lemma filterCache_error (d : List (PyKey × FileRecord)) (k : PyKey)
    (hmiss : pyDictGet d k = Option.none) :
    ∀ (ids : List PyKey) (acc : List (PyKey × FileRecord)), k ∈ ids →
      filterCache d ids acc = Except.error PyErr.keyError := by
  intro ids
  induction ids with
  | nil => intro acc h; simp at h
  | cons a rest ih =>
    intro acc hmem
    cases hga : pyDictGet d a with
    | none => simp [filterCache, hga]
    | some v =>
      have hk : k ∈ rest := by
        rcases List.mem_cons.mp hmem with h1 | h1
        · subst h1
          rw [hmiss] at hga
          cases hga
        · exact h1
      simp [filterCache, hga, ih _ hk]

/-- C10: with the `file_ids` parameter left at its documented default `None`,
`export_files_cache` raises (a `TypeError` from iterating `None` in the
filtering comprehension) and writes no export file; and exporting anything
requires an explicit id list in which every id is present in the registry,
otherwise the call raises `KeyError`, again before any file is written. -/
theorem c10_export_default_errors :
    (∀ (doc : CacheDoc) (existing : List String) (outDir outName : String),
      export_files_cache doc Option.none existing outDir outName
        = Except.error PyErr.typeError)
    ∧ (∀ (doc : CacheDoc) (ids : List PyKey) (existing : List String)
        (outDir outName : String) (k : PyKey), k ∈ ids →
        pyDictGet (read_files_cache doc) k = Option.none →
        export_files_cache doc (Option.some ids) existing outDir outName
          = Except.error PyErr.keyError) := by
  constructor
  · intro doc existing outDir outName
    rfl
  · intro doc ids existing outDir outName k hk hmiss
    have h := filterCache_error (read_files_cache doc) k hmiss ids [] hk
    simp [export_files_cache, h]

/-- Witness for C10 on an empty registry document: the default `None` raises
`TypeError`, and requesting the absent id "1" raises `KeyError`. -/
theorem c10_export_default_errors_witness :
    export_files_cache [] Option.none [] "exports" "files_cache.json"
      = Except.error PyErr.typeError
    ∧ export_files_cache [] (Option.some [PyKey.pStr "1"]) [] "exports" "files_cache.json"
      = Except.error PyErr.keyError :=
  ⟨c10_export_default_errors.1 [] [] "exports" "files_cache.json",
   c10_export_default_errors.2 [] [PyKey.pStr "1"] [] "exports" "files_cache.json"
     (PyKey.pStr "1") (by simp) (by rfl)⟩

end DiscordFS
